import Mathlib

/-!
Verification development for the Ebash shell core.

The Go sources are shallowly embedded:
* `Parser` models `internal/parser/parser.go` (`Parse`, `splitByConditionals`,
  `buildSection`, `redirect`) over `List Char`; file opening is replaced by a
  pure oracle `FS` that says whether an open request succeeds, and the open
  requests themselves (mode and path) are recorded in the result.
  `os.ExpandEnv` is a `String → String` preprocessing step, so theorems
  quantified over all input lines cover all expanded lines; it is omitted.
* `Exec` models `internal/ebash/ebash.go` (`runPipeline`, `runPipe`, `sync`)
  and `internal/external` `Wait`.  Builtin execution and child processes are
  abstracted by a per-command outcome (`CmdOutcome`): whether a builtin call
  fails, whether a spawn fails, and the eventual wait status of a spawned
  external.
* `External` models the argv set-up of `internal/external` `Execute` in both
  shipped variants.
-/

namespace Parser

/-- ASCII whitespace, the cases of Go `unicode.IsSpace` relevant here. -/
def isSpace (c : Char) : Bool :=
  c = ' ' ∨ c = '\t' ∨ c = '\n' ∨ c = '\x0b' ∨ c = '\x0c' ∨ c = '\r'

/-- Go `strings.TrimSpace`. -/
def trimSpace (l : List Char) : List Char :=
  ((l.dropWhile isSpace).reverse.dropWhile isSpace).reverse

/-- Accumulator form of Go `strings.Fields`: split on whitespace runs, dropping
empty pieces.  `cur` holds the current word reversed. -/
def fieldsAux (cur : List Char) : List Char → List (List Char)
  | [] => if cur = [] then [] else [cur.reverse]
  | c :: rest =>
    if isSpace c then
      if cur = [] then fieldsAux [] rest else cur.reverse :: fieldsAux [] rest
    else
      fieldsAux (c :: cur) rest

/-- Go `strings.Fields`. -/
def fields (l : List Char) : List (List Char) :=
  fieldsAux [] l

/-- Accumulator form of Go `strings.Split(s, "|")`, keeping empty pieces. -/
def splitOnPipeAux (cur : List Char) : List Char → List (List Char)
  | [] => [cur.reverse]
  | c :: rest =>
    if c = '|' then cur.reverse :: splitOnPipeAux [] rest
    else splitOnPipeAux (c :: cur) rest

/-- Go `strings.Split(conditional, "|")` from `buildSection`. -/
def splitOnPipe (l : List Char) : List (List Char) :=
  splitOnPipeAux [] l

/-- The `strings.NewReplacer("&&", " && ", "||", " || ", ">", " > ", "<", " < ")`
pass of `Parse`: at each position the patterns are tried in argument order and
the matched old text is skipped.  Note there is no `">>"` pattern in the
shipped parser, so `">>"` becomes two separate `">"` tokens. -/
def replaceOps : List Char → List Char
  | [] => []
  | '&' :: '&' :: rest => ' ' :: '&' :: '&' :: ' ' :: replaceOps rest
  | '|' :: '|' :: rest => ' ' :: '|' :: '|' :: ' ' :: replaceOps rest
  | '>' :: rest => ' ' :: '>' :: ' ' :: replaceOps rest
  | '<' :: rest => ' ' :: '<' :: ' ' :: replaceOps rest
  | c :: rest => c :: replaceOps rest

/-- Loop of Go `splitByConditionals` with the `strings.Builder` made explicit.
A two-byte lookahead recognises `&&` and `||`; `saveWithOperator` flushes the
builder (trimmed) when non-empty and emits the operator.  At the end the
trimmed builder is appended unconditionally. -/
def splitByCondAux (b : List Char) : List Char → List (List Char)
  | '&' :: '&' :: rest =>
    (if b = [] then [] else [trimSpace b]) ++ (['&', '&'] :: splitByCondAux [] rest)
  | '|' :: '|' :: rest =>
    (if b = [] then [] else [trimSpace b]) ++ (['|', '|'] :: splitByCondAux [] rest)
  | c :: rest => splitByCondAux (b ++ [c]) rest
  | [] => [trimSpace b]

/-- Go `splitByConditionals`. -/
def splitByConditionals (line : List Char) : List (List Char) :=
  splitByCondAux [] line

/-- The mode of a recorded open request: `os.Open`, `os.Create`, or
`os.OpenFile(..., O_APPEND|O_CREATE|O_WRONLY, ...)`.  The shipped parser only
ever issues `read` and `truncate` requests. -/
inductive OpenMode where
  | read
  | truncate
  | append
deriving DecidableEq, Repr

/-- Pure stand-in for the file system: whether an open request succeeds. -/
def FS : Type := OpenMode → List Char → Bool

/-- The oracle on which every open request succeeds. -/
def fsOk : FS := fun _ _ => true

/-- The scan inside Go `redirect`: find the first index `i` with
`cmdWithArgs[i] = direction` and `i+1 < len(cmdWithArgs)`; return the tokens
before `i`, the path token at `i+1`, and the tokens after it. -/
def redirectSplit (d : List Char) : List (List Char) →
    Option (List (List Char) × List Char × List (List Char))
  | a :: b :: rest =>
    if a = d then some ([], b, rest)
    else (redirectSplit d (b :: rest)).map fun pre_p => (a :: pre_p.1, pre_p.2)
  | _ => none

/-- Go `redirect`: open the path for creation when the direction is `">"`,
otherwise for reading; remove the operator and path tokens.  When the operator
has no following token the original arguments come back untouched with no
file. -/
def redirect (fs : FS) (cmdWithArgs : List (List Char)) (d : List Char) :
    Except Unit (Option (OpenMode × List Char) × List (List Char)) :=
  match redirectSplit d cmdWithArgs with
  | none => .ok (none, cmdWithArgs)
  | some (pre, path, post) =>
    let mode := if d = ['>'] then OpenMode.truncate else OpenMode.read
    if fs mode path then .ok (some (mode, path), pre ++ post)
    else .error ()

/-- Loop of Go `buildSection` over the pipe-split command texts, carrying the
index `i`; `n` is the total number of command texts.  A command text whose
fields are empty is skipped.  The first text may attach an input redirection,
the last an output redirection; note the emptiness check happens before
`redirect`, so a text made of only an operator and a path yields an empty
command. -/
def buildSectionGo (fs : FS) (n : Nat) :
    Nat → List (List Char) →
    Except Unit (List (List (List Char)) ×
      Option (OpenMode × List Char) × Option (OpenMode × List Char))
  | _, [] => .ok ([], none, none)
  | i, cmd :: rest =>
    let cmdWithArgs := fields (trimSpace cmd)
    if cmdWithArgs = [] then buildSectionGo fs n (i + 1) rest
    else
      match (if i = 0 ∧ '<' ∈ cmd then redirect fs cmdWithArgs ['<']
             else .ok (none, cmdWithArgs)) with
      | .error e => .error e
      | .ok (inp, args1) =>
        match (if i = n - 1 ∧ '>' ∈ cmd then redirect fs args1 ['>']
               else .ok (none, args1)) with
        | .error e => .error e
        | .ok (outp, args2) =>
          match buildSectionGo fs n (i + 1) rest with
          | .error e => .error e
          | .ok (secRest, inpR, outR) =>
            .ok (args2 :: secRest, inp <|> inpR, outp <|> outR)

/-- Go `buildSection`. -/
def buildSection (fs : FS) (conditional : List Char) :
    Except Unit (List (List (List Char)) ×
      Option (OpenMode × List Char) × Option (OpenMode × List Char)) :=
  let commands := splitOnPipe conditional
  buildSectionGo fs commands.length 0 commands

/-- Go `parser.Pipe`.  `Input` and `Output` record the open request (mode and
path) instead of the `*os.File`. -/
structure Pipe where
  Section : List (List (List Char))
  Input : Option (OpenMode × List Char)
  Output : Option (OpenMode × List Char)
  NextAnd : Bool
  NextOr : Bool
deriving DecidableEq, Repr

/-- Loop of Go `Parse` over the pieces from `splitByConditionals`, carrying
the pending `nextAnd` / `nextOr` flags.  An empty piece or a bare operator is
skipped.  Otherwise a flag is set from the following piece if it is an
operator, the `Pipe` is built and appended, and when a flag was set both flags
reset and the following piece is consumed (`i++`). -/
def parseGo (fs : FS) (nA nO : Bool) : List (List Char) → Except Unit (List Pipe)
  | [] => .ok []
  | [cond] =>
    if cond = [] ∨ cond = ['&', '&'] ∨ cond = ['|', '|'] then .ok []
    else
      match buildSection fs cond with
      | .error e => .error e
      | .ok (sec, inp, outp) =>
        .ok [{ Section := sec, Input := inp, Output := outp,
               NextAnd := nA, NextOr := nO }]
  | cond :: op :: rest =>
    if cond = [] ∨ cond = ['&', '&'] ∨ cond = ['|', '|'] then
      parseGo fs nA nO (op :: rest)
    else
      let nA' := if op = ['&', '&'] then true else nA
      let nO' := if op = ['|', '|'] then true else nO
      match buildSection fs cond with
      | .error e => .error e
      | .ok (sec, inp, outp) =>
        match (if nA' ∨ nO' then parseGo fs false false rest
               else parseGo fs nA' nO' (op :: rest)) with
        | .error e => .error e
        | .ok pipes =>
          .ok ({ Section := sec, Input := inp, Output := outp,
                 NextAnd := nA', NextOr := nO' } :: pipes)

/-- Go `parser.Parse` (with `os.ExpandEnv` treated as preprocessing, see the
module header). -/
def Parse (fs : FS) (line : List Char) : Except Unit (List Pipe) :=
  parseGo fs false false (splitByConditionals (replaceOps line))

end Parser

namespace Exec

/-- Outcome of dispatching one command of a stage, abstracting the operating
system: a builtin either succeeds or reports an error (`builtin.Execute`), an
external command either fails to start (`cmd.Start`) or runs and is later
reaped with the given wait status (`0` for success, non-zero for a failed or
signal-terminated child). -/
inductive CmdOutcome where
  | builtin (fails : Bool)
  | external (spawnFails : Bool) (status : Int)
deriving DecidableEq, Repr

/-- Result of `runPipe`: the returned exit code, whether a non-nil error came
back with it, the wait statuses of the externals spawned in launch order, and
whether the wait pass (`sync` / `external.Wait`) ran before returning. -/
structure PipeResult where
  exitCode : Int
  fault : Bool
  spawned : List Int
  waited : Bool
deriving DecidableEq, Repr

/-- Loop of `external.Wait`: every command is waited on; `lastErr` is
overwritten by each non-nil wait error.  A wait error is modelled by a
non-zero status, and the resulting `*exec.ExitError` code is the status
itself. -/
def waitGo (lastErr : Option Int) : List Int → Option Int
  | [] => lastErr
  | s :: rest => waitGo (if s ≠ 0 then some s else lastErr) rest

/-- `external.Wait` on the tracked externals. -/
def Wait (externals : List Int) : Option Int :=
  waitGo none externals

/-- Tail of `runPipe` after all commands launched: if any external was spawned
(`shell.externals != nil`) run `sync`; an `ExitError` from `Wait` becomes the
stage exit code, otherwise the stage reports `0`. -/
def finishPipe (spawned : List Int) : PipeResult :=
  if spawned = [] then ⟨0, false, [], false⟩
  else
    match Wait spawned with
    | some c => ⟨c, false, spawned, true⟩
    | none => ⟨0, false, spawned, true⟩

/-- Launch loop of `runPipe`: builtins run synchronously and a failure returns
`(1, err)` at once; a spawn failure likewise returns `(1, err)` at once; a
successful spawn appends the command to `shell.externals`.  Both error
returns happen before `sync`, so nothing is waited on. -/
def runPipeGo (spawned : List Int) : List CmdOutcome → PipeResult
  | [] => finishPipe spawned
  | CmdOutcome.builtin fails :: rest =>
    if fails then ⟨1, true, spawned, false⟩
    else runPipeGo spawned rest
  | CmdOutcome.external spawnFails status :: rest =>
    if spawnFails then ⟨1, true, spawned, false⟩
    else runPipeGo (spawned ++ [status]) rest

/-- `Shell.runPipe` for one stage, entered with an empty tracked-externals
list. -/
def runPipe (cmds : List CmdOutcome) : PipeResult :=
  runPipeGo [] cmds

/-- One stage of a parsed pipeline as the orchestrator sees it: the two
conditional flags of its `parser.Pipe` plus the outcomes of its commands. -/
structure StageR where
  NextAnd : Bool
  NextOr : Bool
  cmds : List CmdOutcome
deriving DecidableEq, Repr, Inhabited

/-- The `shouldRun` computation of `runPipeline` for stage `i > 0`, from the
flags of stage `i-1` and the last recorded exit code.  Stage `0` is covered by
`pA = pO = false`, which forces `true` exactly like the `i > 0` guard in the
Go code. -/
def shouldRun (pA pO : Bool) (lastCode : Int) : Bool :=
  if pA = true ∧ lastCode ≠ 0 then false
  else if pO = true ∧ lastCode = 0 then false
  else true

/-- Loop of `Shell.runPipeline`.  Returns the per-stage trace — for each stage
reached, whether it ran and the value of `lastExitCode` after it — and whether
the loop stopped with a non-nil error from `runPipe` (in which case the
remaining stages are never reached). -/
def runLoop (lastCode : Int) (pA pO : Bool) :
    List StageR → List (Bool × Int) × Bool
  | [] => ([], false)
  | s :: rest =>
    if shouldRun pA pO lastCode then
      let r := runPipe s.cmds
      if r.fault then ([(true, r.exitCode)], true)
      else
        let t := runLoop r.exitCode s.NextAnd s.NextOr rest
        ((true, r.exitCode) :: t.1, t.2)
    else
      let t := runLoop lastCode s.NextAnd s.NextOr rest
      ((false, lastCode) :: t.1, t.2)

/-- `Shell.runPipeline`: `lastExitCode` starts at `0` and stage `0` has no
predecessor flags. -/
def runPipeline (stages : List StageR) : List (Bool × Int) × Bool :=
  runLoop 0 false false stages

/-- Default trace entry for indexed access in theorem statements. -/
def dTr : Bool × Int := (true, 0)

/-- Spec-side description of the stage exit code (§4.3, §9 of the design):
the status of the last command, in left-to-right order, whose status was
non-zero, and `0` when every command succeeded. -/
def specLastFailing (statuses : List Int) : Int :=
  ((statuses.filter fun s => decide (s ≠ 0)).getLast?).getD 0

/-- A command outcome that does not abort the launch loop. -/
def launchOk : CmdOutcome → Bool
  | CmdOutcome.builtin fails => !fails
  | CmdOutcome.external spawnFails _ => !spawnFails

/-- Wait statuses contributed by the successfully spawned externals of a
command list, in launch order. -/
def statusesOf (cmds : List CmdOutcome) : List Int :=
  cmds.filterMap fun c =>
    match c with
    | CmdOutcome.external false status => some status
    | _ => none

end Exec

namespace External

/-- Argv set-up of `Execute` in `internal/external` (the variant that gates
the colour flag on the stage having no output-redirection file): for `ls` and
`grep` with no output file, `--color=always` is prepended to `command[1:]`.
The Go code indexes `command[0]`, so the empty case is never reached for
parser-produced commands. -/
def executeArgsNoOut : List String → Option Unit → List String
  | [], _ => []
  | c0 :: args, outputFile =>
    if (c0 = "ls" ∨ c0 = "grep") ∧ outputFile = none then
      "--color=always" :: args
    else args

/-- Argv set-up of the shipped variant of `Execute` that gates the colour flag
on `term.IsTerminal(os.Stdout.Fd())` instead. -/
def executeArgsTerm : List String → Bool → List String
  | [], _ => []
  | c0 :: args, isTerm =>
    if (c0 = "ls" ∨ c0 = "grep") ∧ isTerm = true then
      "--color=always" :: args
    else args

end External

namespace Exec

lemma finishPipe_fault (spawned : List Int) : (finishPipe spawned).fault = false := by
  unfold finishPipe
  split
  · rfl
  · split <;> rfl

lemma runPipeGo_fault_code (cmds : List CmdOutcome) :
    ∀ spawned, (runPipeGo spawned cmds).fault = true →
      (runPipeGo spawned cmds).exitCode = 1 := by
  induction cmds with
  | nil =>
    intro spawned h
    rw [runPipeGo, finishPipe_fault] at h
    exact absurd h (by simp)
  | cons c rest ih =>
    intro spawned h
    cases c with
    | builtin fails =>
      cases fails with
      | false => simpa [runPipeGo] using ih spawned (by simpa [runPipeGo] using h)
      | true => simp [runPipeGo]
    | external spawnFails status =>
      cases spawnFails with
      | false =>
        simpa [runPipeGo] using ih (spawned ++ [status]) (by simpa [runPipeGo] using h)
      | true => simp [runPipeGo]

lemma runPipeGo_cons_builtin_ok (spawned : List Int) (rest : List CmdOutcome) :
    runPipeGo spawned (CmdOutcome.builtin false :: rest) = runPipeGo spawned rest := by
  simp [runPipeGo]

lemma runPipeGo_cons_ext (spawned : List Int) (st : Int) (rest : List CmdOutcome) :
    runPipeGo spawned (CmdOutcome.external false st :: rest) =
      runPipeGo (spawned ++ [st]) rest := by
  simp [runPipeGo]

lemma runPipeGo_map_external (statuses : List Int) :
    ∀ spawned, runPipeGo spawned (statuses.map fun st => CmdOutcome.external false st) =
      finishPipe (spawned ++ statuses) := by
  induction statuses with
  | nil => intro spawned; simp [runPipeGo]
  | cons s rest ih =>
    intro spawned
    rw [List.map_cons, runPipeGo_cons_ext, ih (spawned ++ [s])]
    simp

lemma waitGo_spec (l : List Int) : ∀ acc, waitGo acc l =
    match (l.filter fun s => decide (s ≠ 0)).getLast? with
    | some x => some x
    | none => acc := by
  induction l with
  | nil => intro acc; simp [waitGo]
  | cons s rest ih =>
    intro acc
    rw [waitGo, ih]
    by_cases hs : s = 0
    · have hf : (s :: rest).filter (fun x => decide (x ≠ 0)) =
          rest.filter (fun x => decide (x ≠ 0)) := by
        simp [List.filter_cons, hs]
      rw [hf, if_neg (by simp [hs])]
    · have hf : (s :: rest).filter (fun x => decide (x ≠ 0)) =
          s :: rest.filter (fun x => decide (x ≠ 0)) := by
        simp [List.filter_cons, hs]
      rw [hf, if_pos hs]
      cases hrest : (rest.filter fun x => decide (x ≠ 0)) with
      | nil => simp
      | cons b t =>
        rw [List.getLast?_cons_cons]
        cases hgl : (b :: t).getLast? with
        | none => rw [List.getLast?_eq_none_iff] at hgl; exact absurd hgl (by simp)
        | some x => rfl

lemma Wait_eq_getLast (statuses : List Int) :
    Wait statuses = (statuses.filter fun s => decide (s ≠ 0)).getLast? := by
  rw [Wait, waitGo_spec]
  cases (statuses.filter fun s => decide (s ≠ 0)).getLast? <;> rfl

lemma runPipeGo_launchOk_builtin_fail (pre : List CmdOutcome) (rest : List CmdOutcome) :
    ∀ spawned, (∀ c ∈ pre, launchOk c = true) →
      runPipeGo spawned (pre ++ CmdOutcome.builtin true :: rest) =
        ⟨1, true, spawned ++ statusesOf pre, false⟩ := by
  induction pre with
  | nil => intro spawned _; simp [runPipeGo, statusesOf]
  | cons c pre' ih =>
    intro spawned h
    have hc : launchOk c = true := h c (by simp)
    have hrest : ∀ c ∈ pre', launchOk c = true := fun c hm => h c (by simp [hm])
    cases c with
    | builtin fails =>
      cases fails with
      | false =>
        rw [List.cons_append, runPipeGo_cons_builtin_ok, ih spawned hrest]
        simp [statusesOf, List.filterMap_cons]
      | true => simp [launchOk] at hc
    | external spawnFails status =>
      cases spawnFails with
      | false =>
        rw [List.cons_append, runPipeGo_cons_ext, ih (spawned ++ [status]) hrest]
        simp [statusesOf, List.filterMap_cons]
      | true => simp [launchOk] at hc

end Exec

/-- C1 counterexample: a pipeline of two stages where stage 0 is a failing
builtin (as in a failed `cd`) carrying the run-if-previous-failed
edge-condition (`||`).  The claim says stage 1 is still evaluated; the code
returns the error from `runPipeline` at once, so the trace stops after stage 0
(length 1) with the error flag set. -/
theorem c1_counterexample :
    (Exec.runPipeline [⟨false, true, [Exec.CmdOutcome.builtin true]⟩,
        ⟨false, false, [Exec.CmdOutcome.builtin false]⟩]).2 = true ∧
    (Exec.runPipeline [⟨false, true, [Exec.CmdOutcome.builtin true]⟩,
        ⟨false, false, [Exec.CmdOutcome.builtin false]⟩]).1.length = 1 := by
  decide

/-- C1 (amended): a builtin or spawn failure inside a stage that runs makes
`runPipe` report exit code 1 together with a non-nil error, and `runPipeline`
returns that error immediately: no later stage is evaluated, whatever its
edge-condition — the whole pipeline terminates. -/
theorem c1_stage_fault_aborts_pipeline (lastCode : Int) (pA pO : Bool)
    (s : Exec.StageR) (rest : List Exec.StageR)
    (hrun : Exec.shouldRun pA pO lastCode = true)
    (hfault : (Exec.runPipe s.cmds).fault = true) :
    Exec.runLoop lastCode pA pO (s :: rest) = ([(true, 1)], true) := by
  have hc : (Exec.runPipe s.cmds).exitCode = 1 :=
    Exec.runPipeGo_fault_code s.cmds [] hfault
  rw [Exec.runLoop, if_pos hrun]
  simp [hfault, hc]

/-- Witness for C1 (amended) at a concrete two-stage pipeline. -/
theorem c1_stage_fault_aborts_pipeline_witness :
    Exec.runLoop 0 false false [⟨false, true, [Exec.CmdOutcome.builtin true]⟩,
        ⟨false, false, [Exec.CmdOutcome.builtin false]⟩] = ([(true, 1)], true) :=
  c1_stage_fault_aborts_pipeline 0 false false
    ⟨false, true, [Exec.CmdOutcome.builtin true]⟩
    [⟨false, false, [Exec.CmdOutcome.builtin false]⟩] (by decide) (by decide)

/-- C4 counterexample: a stage that spawns one external successfully and then
fails a builtin.  The exit code is 1 as the claim says, but the wait/cleanup
pass over the already-spawned sibling does not run before the stage returns,
contradicting the claim's second half. -/
theorem c4_counterexample :
    (Exec.runPipe [Exec.CmdOutcome.external false 0,
        Exec.CmdOutcome.builtin true]).exitCode = 1 ∧
    (Exec.runPipe [Exec.CmdOutcome.external false 0,
        Exec.CmdOutcome.builtin true]).spawned = [0] ∧
    (Exec.runPipe [Exec.CmdOutcome.external false 0,
        Exec.CmdOutcome.builtin true]).waited = false := by
  decide

/-- C4 (amended): when a builtin fails after any run of successful launches,
the stage reports exit code 1 and returns at once with the error; the
wait/cleanup pass over the externals already spawned in the stage does not
run before the stage completes. -/
theorem c4_builtin_failure_skips_wait (pre rest : List Exec.CmdOutcome)
    (h : ∀ c ∈ pre, Exec.launchOk c = true) :
    Exec.runPipe (pre ++ Exec.CmdOutcome.builtin true :: rest) =
      ⟨1, true, Exec.statusesOf pre, false⟩ := by
  simpa [Exec.runPipe] using Exec.runPipeGo_launchOk_builtin_fail pre rest [] h

/-- Witness for C4 (amended) with one spawned external before the failing
builtin. -/
theorem c4_builtin_failure_skips_wait_witness :
    Exec.runPipe [Exec.CmdOutcome.external false 7, Exec.CmdOutcome.builtin true,
        Exec.CmdOutcome.builtin false] = ⟨1, true, [7], false⟩ :=
  c4_builtin_failure_skips_wait [Exec.CmdOutcome.external false 7]
    [Exec.CmdOutcome.builtin false] (by decide)

/-- C5: for a stage of external commands that all spawn successfully, the
reported exit code is the wait status of the last command, in launch order,
with a non-zero status — and 0 when every command succeeded.  A later failure
overwrites an earlier one and a later success does not clear an earlier
failure, both captured by taking the last element of the non-zero statuses. -/
theorem c5_rightmost_failing_status_wins (statuses : List Int) :
    (Exec.runPipe (statuses.map fun st => Exec.CmdOutcome.external false st)).exitCode =
      Exec.specLastFailing statuses ∧
    (Exec.runPipe (statuses.map fun st => Exec.CmdOutcome.external false st)).fault = false ∧
    (Exec.runPipe (statuses.map fun st => Exec.CmdOutcome.external false st)).spawned =
      statuses := by
  have h : Exec.runPipe (statuses.map fun st => Exec.CmdOutcome.external false st) =
      Exec.finishPipe statuses := by
    simpa [Exec.runPipe] using Exec.runPipeGo_map_external statuses []
  rw [h, Exec.specLastFailing, ← Exec.Wait_eq_getLast]
  by_cases hst : statuses = []
  · subst hst
    simp [Exec.finishPipe, Exec.Wait, Exec.waitGo]
  · rw [Exec.finishPipe, if_neg hst]
    cases hW : Exec.Wait statuses with
    | none => simp
    | some c => simp

/-- C10: the external spawner's argv is not always the user's tokens
verbatim.  In the variant gated on redirection, `ls`/`grep` with no output
file get `--color=always` prepended; in the variant gated on the terminal,
`ls`/`grep` get it when stdout is a terminal; all other command names receive
exactly the parsed tokens after the program name. -/
theorem c10_color_flag :
    (∀ (c0 : String) (args : List String) (o : Option Unit),
        (c0 = "ls" ∨ c0 = "grep") → o = none →
        External.executeArgsNoOut (c0 :: args) o = "--color=always" :: args) ∧
    (∀ (c0 : String) (args : List String) (o : Option Unit),
        c0 ≠ "ls" → c0 ≠ "grep" →
        External.executeArgsNoOut (c0 :: args) o = args) ∧
    (∀ (c0 : String) (args : List String),
        External.executeArgsNoOut (c0 :: args) (some ()) = args) ∧
    (∀ (c0 : String) (args : List String),
        (c0 = "ls" ∨ c0 = "grep") →
        External.executeArgsTerm (c0 :: args) true = "--color=always" :: args) ∧
    (∀ (c0 : String) (args : List String) (b : Bool),
        c0 ≠ "ls" → c0 ≠ "grep" →
        External.executeArgsTerm (c0 :: args) b = args) ∧
    (∀ (c0 : String) (args : List String),
        External.executeArgsTerm (c0 :: args) false = args) := by
  refine ⟨?_, ?_, ?_, ?_, ?_, ?_⟩
  · intro c0 args o h1 h2
    subst h2
    rcases h1 with h | h <;> simp [External.executeArgsNoOut, h]
  · intro c0 args o h1 h2
    simp [External.executeArgsNoOut, h1, h2]
  · intro c0 args
    simp [External.executeArgsNoOut]
  · intro c0 args h1
    rcases h1 with h | h <;> simp [External.executeArgsTerm, h]
  · intro c0 args b h1 h2
    simp [External.executeArgsTerm, h1, h2]
  · intro c0 args
    simp [External.executeArgsTerm]

/-- Witness for C10 at concrete commands. -/
theorem c10_color_flag_witness :
    External.executeArgsNoOut ["ls", "-l"] none = ["--color=always", "-l"] ∧
    External.executeArgsNoOut ["cat", "x"] none = ["x"] ∧
    External.executeArgsTerm ["grep", "foo"] true = ["--color=always", "foo"] :=
  ⟨c10_color_flag.1 "ls" ["-l"] none (Or.inl rfl) rfl,
   c10_color_flag.2.1 "cat" ["x"] none (by decide) (by decide),
   c10_color_flag.2.2.2.1 "grep" ["foo"] (Or.inr rfl)⟩

namespace Parser

lemma redirectSplit_no_target (d : List Char) :
    ∀ args : List (List Char), d ∉ args.dropLast → redirectSplit d args = none := by
  intro args
  induction args with
  | nil => intro _; rfl
  | cons a rest ih =>
    cases rest with
    | nil => intro _; rfl
    | cons b t =>
      intro h
      have hsplit : (a :: b :: t).dropLast = a :: (b :: t).dropLast := rfl
      rw [hsplit] at h
      have hne : a ≠ d := fun he => h (by simp [he])
      have htail : d ∉ (b :: t).dropLast := fun hm => h (by simp [hm])
      rw [redirectSplit, if_neg hne, ih htail]
      rfl

end Parser

/-- C3: the shipped parser has no `">>"` pattern in its operator normalizer,
so on the repository's own test line `echo b >> test2` the two `>` tokens are
produced and `redirect` truncate-creates a file literally named `">"`, while
`test2` survives as an ordinary `echo` argument — instead of the claimed
append-mode open of `test2`.  This evaluation exhibits the behaviour at that
failing input. -/
theorem c3_double_gt_not_append :
    Parser.Parse Parser.fsOk "echo b >> test2".toList =
      .ok [{ Section := [["echo".toList, "b".toList, "test2".toList]],
             Input := none,
             Output := some (Parser.OpenMode.truncate, ['>']),
             NextAnd := false, NextOr := false }] := by
  rfl

/-- C6 counterexample: the input line `|` is a segment that yields zero
non-empty commands, yet `Parse` still produces a `Pipe` for it — with an
empty `Section` — contradicting the claim that such a segment produces no
Stage (equivalently, that every Stage has a non-empty Section). -/
theorem c6_counterexample :
    Parser.Parse Parser.fsOk "|".toList =
      .ok [{ Section := [], Input := none, Output := none,
             NextAnd := false, NextOr := false }] := by
  rfl

namespace Parser

lemma buildSectionGo_skip_empty (fs : FS) (n i : Nat) (cmd : List Char)
    (rest : List (List Char)) (h : fields (trimSpace cmd) = []) :
    buildSectionGo fs n i (cmd :: rest) = buildSectionGo fs n (i + 1) rest := by
  simp [buildSectionGo, h]

lemma buildSectionGo_section_length (fs : FS) (n : Nat) :
    ∀ (texts : List (List Char)) (i : Nat) sec inp outp,
      buildSectionGo fs n i texts = .ok (sec, inp, outp) →
      sec.length =
        (texts.filter fun c => !(fields (trimSpace c)).isEmpty).length := by
  intro texts
  induction texts with
  | nil =>
    intro i sec inp outp h
    simp only [buildSectionGo, Except.ok.injEq, Prod.mk.injEq] at h
    obtain ⟨h1, _, _⟩ := h
    simp [← h1]
  | cons cmd rest ih =>
    intro i sec inp outp h
    by_cases hemp : fields (trimSpace cmd) = []
    · rw [buildSectionGo_skip_empty fs n i cmd rest hemp] at h
      rw [List.filter_cons, if_neg (by simp [hemp])]
      exact ih (i + 1) sec inp outp h
    · simp only [buildSectionGo] at h
      rw [if_neg hemp] at h
      cases h1 : (if i = 0 ∧ '<' ∈ cmd then redirect fs (fields (trimSpace cmd)) ['<']
                  else .ok (none, fields (trimSpace cmd))) with
      | error e => rw [h1] at h; cases h
      | ok v1 =>
        obtain ⟨inp1, args1⟩ := v1
        rw [h1] at h
        dsimp only at h
        cases h2 : (if i = n - 1 ∧ '>' ∈ cmd then redirect fs args1 ['>']
                    else .ok (none, args1)) with
        | error e => rw [h2] at h; cases h
        | ok v2 =>
          obtain ⟨outp1, args2⟩ := v2
          rw [h2] at h
          dsimp only at h
          cases h3 : buildSectionGo fs n (i + 1) rest with
          | error e => rw [h3] at h; cases h
          | ok v3 =>
            obtain ⟨secR, inpR, outR⟩ := v3
            rw [h3] at h
            dsimp only at h
            simp only [Except.ok.injEq, Prod.mk.injEq] at h
            obtain ⟨hsec, _, _⟩ := h
            rw [List.filter_cons, if_pos (by simp [hemp])]
            rw [← hsec, List.length_cons, List.length_cons,
              ih (i + 1) secR inpR outR h3]

end Parser

/-- C6 (amended): an empty command text between two pipe symbols is skipped
without error — for every such text, `buildSection`'s loop continues on the
remaining texts exactly as if the empty text were not there, and the built
Section has exactly one Command per text with non-empty fields; a
whitespace-only segment trims to the empty segment, which the parse loop of
`Parse` skips for every input, producing no Stage; but a segment consisting
only of pipe symbols produces a Stage with an empty Section. -/
theorem c6_empty_commands :
    (∀ (fs : Parser.FS) (n i : Nat) (cmd : List Char) (rest : List (List Char)),
        Parser.fields (Parser.trimSpace cmd) = [] →
        Parser.buildSectionGo fs n i (cmd :: rest) =
          Parser.buildSectionGo fs n (i + 1) rest) ∧
    (∀ (fs : Parser.FS) (conditional : List Char)
        (sec : List (List (List Char)))
        (inp outp : Option (Parser.OpenMode × List Char)),
        Parser.buildSection fs conditional = .ok (sec, inp, outp) →
        sec.length = ((Parser.splitOnPipe conditional).filter
          fun c => !(Parser.fields (Parser.trimSpace c)).isEmpty).length) ∧
    (∀ l : List Char, (∀ c ∈ l, Parser.isSpace c = true) →
        Parser.trimSpace l = []) ∧
    (∀ (fs : Parser.FS) (nA nO : Bool) (cond : List Char)
        (rest : List (List Char)),
        cond = [] ∨ cond = ['&', '&'] ∨ cond = ['|', '|'] →
        Parser.parseGo fs nA nO (cond :: rest) = Parser.parseGo fs nA nO rest) ∧
    Parser.Parse Parser.fsOk "a | | b".toList =
      .ok [{ Section := [[['a']], [['b']]], Input := none, Output := none,
             NextAnd := false, NextOr := false }] ∧
    Parser.Parse Parser.fsOk "a &&  ".toList =
      .ok [{ Section := [[['a']]], Input := none, Output := none,
             NextAnd := true, NextOr := false }] ∧
    Parser.Parse Parser.fsOk "|".toList =
      .ok [{ Section := [], Input := none, Output := none,
             NextAnd := false, NextOr := false }] := by
  refine ⟨?_, ?_, ?_, ?_, ?_, ?_, ?_⟩
  · intro fs n i cmd rest h
    exact Parser.buildSectionGo_skip_empty fs n i cmd rest h
  · intro fs conditional sec inp outp h
    exact Parser.buildSectionGo_section_length fs
      (Parser.splitOnPipe conditional).length (Parser.splitOnPipe conditional)
      0 sec inp outp h
  · intro l h
    have h1 : l.dropWhile Parser.isSpace = [] := List.dropWhile_eq_nil_iff.mpr h
    simp [Parser.trimSpace, h1]
  · intro fs nA nO cond rest h
    cases rest with
    | nil =>
      simp only [Parser.parseGo]
      rw [if_pos h]
    | cons op rest' =>
      conv_lhs => rw [Parser.parseGo]
      rw [if_pos h]
  · rfl
  · rfl
  · rfl

/-- Witness for C6 (amended): a whitespace text between pipes is skipped by
the section builder, `a| |b` builds one Command per non-empty text, an
all-space segment trims to empty, and the empty segment is skipped by the
parse loop. -/
theorem c6_empty_commands_witness :
    Parser.buildSectionGo Parser.fsOk 3 1 [" ".toList, "b".toList] =
      Parser.buildSectionGo Parser.fsOk 3 2 ["b".toList] ∧
    ([[['a']], [['b']]] : List (List (List Char))).length =
      ((Parser.splitOnPipe "a | | b".toList).filter
        fun c => !(Parser.fields (Parser.trimSpace c)).isEmpty).length ∧
    Parser.trimSpace "   ".toList = [] ∧
    Parser.parseGo Parser.fsOk false false [[], "b".toList] =
      Parser.parseGo Parser.fsOk false false ["b".toList] :=
  ⟨c6_empty_commands.1 Parser.fsOk 3 1 " ".toList ["b".toList] (by rfl),
   c6_empty_commands.2.1 Parser.fsOk "a | | b".toList [[['a']], [['b']]]
     none none (by rfl),
   c6_empty_commands.2.2.1 "   ".toList (by decide),
   c6_empty_commands.2.2.2.1 Parser.fsOk false false [] ["b".toList]
     (Or.inl rfl)⟩

/-- C8: on input `> f` (a command text consisting only of the redirection
operator and its path) the emptiness check of `buildSection` runs before
`redirect` strips the two tokens, so `Parse` returns a Stage whose only
Command is the empty token list.  Every consumer then indexes `command[0]`,
which is out of bounds — contradicting the claim that every Command is
non-empty. -/
theorem c8_empty_command_produced :
    Parser.Parse Parser.fsOk "> f".toList =
      .ok [{ Section := [[]], Input := none,
             Output := some (Parser.OpenMode.truncate, ['f']),
             NextAnd := false, NextOr := false }] := by
  rfl

/-- C9 counterexample: on input `echo >` — where the redirection operator is
the final token with no following path — `Parse` returns no error and builds
a Pipeline keeping `>` as an ordinary argument of `echo`, contradicting the
claimed `ParseError`. -/
theorem c9_counterexample :
    Parser.Parse Parser.fsOk "echo >".toList =
      .ok [{ Section := [["echo".toList, ['>']]], Input := none, Output := none,
             NextAnd := false, NextOr := false }] := by
  rfl

/-- C9 (amended): a redirection operator with no following path token is not
treated as a redirection at all: `redirect` returns the argument list
untouched with no open request and no error (the operator is silently kept
as an ordinary argument), and parsing the line succeeds, producing a
Pipeline. -/
theorem c9_trailing_operator_kept :
    (∀ (fs : Parser.FS) (args : List (List Char)) (d : List Char),
        d ∉ args.dropLast → Parser.redirect fs args d = .ok (none, args)) ∧
    Parser.Parse Parser.fsOk "echo >".toList =
      .ok [{ Section := [["echo".toList, ['>']]], Input := none, Output := none,
             NextAnd := false, NextOr := false }] := by
  constructor
  · intro fs args d h
    rw [Parser.redirect, Parser.redirectSplit_no_target d args h]
  · rfl

/-- Witness for C9 (amended): the trailing `>` of `echo >` is kept. -/
theorem c9_trailing_operator_kept_witness :
    Parser.redirect Parser.fsOk ["echo".toList, ['>']] ['>'] =
      .ok (none, ["echo".toList, ['>']]) :=
  c9_trailing_operator_kept.1 Parser.fsOk ["echo".toList, ['>']] ['>'] (by decide)

namespace Parser

lemma parseGo_flags_ok (fs : FS) :
    ∀ (n : Nat) (conds : List (List Char)), conds.length ≤ n →
      ∀ pipes, parseGo fs false false conds = .ok pipes →
      ∀ p ∈ pipes, p.NextAnd = false ∨ p.NextOr = false := by
  intro n
  induction n with
  | zero =>
    intro conds hlen pipes hp p hmem
    have hc : conds = [] := List.length_eq_zero.mp (Nat.le_zero.mp hlen)
    subst hc
    simp only [parseGo] at hp
    cases hp
    simp at hmem
  | succ n ih =>
    intro conds hlen pipes hp p hmem
    match conds, hlen, hp with
    | [], _, hp =>
      simp only [parseGo] at hp
      cases hp
      simp at hmem
    | [cond], _, hp =>
      simp only [parseGo] at hp
      by_cases hskip : cond = [] ∨ cond = ['&', '&'] ∨ cond = ['|', '|']
      · rw [if_pos hskip] at hp
        cases hp
        simp at hmem
      · rw [if_neg hskip] at hp
        cases hbs : buildSection fs cond with
        | error e => rw [hbs] at hp; cases hp
        | ok v =>
          obtain ⟨sec, inp, outp⟩ := v
          rw [hbs] at hp
          cases hp
          simp only [List.mem_singleton] at hmem
          subst hmem
          exact Or.inl rfl
    | cond :: op :: rest, hlen, hp =>
      simp only [parseGo] at hp
      by_cases hskip : cond = [] ∨ cond = ['&', '&'] ∨ cond = ['|', '|']
      · rw [if_pos hskip] at hp
        exact ih (op :: rest) (by simp at hlen ⊢; omega) pipes hp p hmem
      · rw [if_neg hskip] at hp
        cases hbs : buildSection fs cond with
        | error e => rw [hbs] at hp; cases hp
        | ok v =>
          obtain ⟨sec, inp, outp⟩ := v
          rw [hbs] at hp
          by_cases hand : op = ['&', '&']
          · have hor : op ≠ ['|', '|'] := by subst hand; decide
            rw [if_pos hand, if_neg hor] at hp
            rw [if_pos (Or.inl rfl)] at hp
            cases hrec : parseGo fs false false rest with
            | error e => rw [hrec] at hp; cases hp
            | ok pipes' =>
              rw [hrec] at hp
              cases hp
              rcases List.mem_cons.mp hmem with hpe | hpm
              · subst hpe; exact Or.inr rfl
              · exact ih rest (by simp at hlen ⊢; omega) pipes' hrec p hpm
          · rw [if_neg hand] at hp
            by_cases hor : op = ['|', '|']
            · rw [if_pos hor] at hp
              rw [if_pos (Or.inr rfl)] at hp
              cases hrec : parseGo fs false false rest with
              | error e => rw [hrec] at hp; cases hp
              | ok pipes' =>
                rw [hrec] at hp
                cases hp
                rcases List.mem_cons.mp hmem with hpe | hpm
                · subst hpe; exact Or.inl rfl
                · exact ih rest (by simp at hlen ⊢; omega) pipes' hrec p hpm
            · rw [if_neg hor] at hp
              rw [if_neg (by simp)] at hp
              cases hrec : parseGo fs false false (op :: rest) with
              | error e => rw [hrec] at hp; cases hp
              | ok pipes' =>
                rw [hrec] at hp
                cases hp
                rcases List.mem_cons.mp hmem with hpe | hpm
                · subst hpe; exact Or.inl rfl
                · exact ih (op :: rest) (by simp at hlen ⊢; omega) pipes' hrec p hpm

end Parser

/-- C7: every `Pipe` produced by `Parse` has mutually exclusive
edge-conditions — `NextAnd` and `NextOr` are never both true, so each stage
carries exactly one of Unconditional, RunIfPreviousSucceeded,
RunIfPreviousFailed. -/
theorem c7_edge_conditions_exclusive (fs : Parser.FS) (line : List Char)
    (pipes : List Parser.Pipe) (h : Parser.Parse fs line = .ok pipes) :
    ∀ p ∈ pipes, ¬(p.NextAnd = true ∧ p.NextOr = true) := by
  intro p hp hcontra
  rw [Parser.Parse] at h
  rcases Parser.parseGo_flags_ok fs
      (Parser.splitByConditionals (Parser.replaceOps line)).length
      (Parser.splitByConditionals (Parser.replaceOps line)) le_rfl pipes h p hp with
    h1 | h1
  · rw [hcontra.1] at h1; exact absurd h1 (by simp)
  · rw [hcontra.2] at h1; exact absurd h1 (by simp)

/-- Witness for C7 on the line `a && b`. -/
theorem c7_edge_conditions_exclusive_witness :
    ¬(({ Section := [[['a']]], Input := none, Output := none,
         NextAnd := true, NextOr := false } : Parser.Pipe).NextAnd = true ∧
      ({ Section := [[['a']]], Input := none, Output := none,
         NextAnd := true, NextOr := false } : Parser.Pipe).NextOr = true) :=
  c7_edge_conditions_exclusive Parser.fsOk "a && b".toList
    [{ Section := [[['a']]], Input := none, Output := none,
       NextAnd := true, NextOr := false },
     { Section := [[['b']]], Input := none, Output := none,
       NextAnd := false, NextOr := false }] (by rfl)
    { Section := [[['a']]], Input := none, Output := none,
      NextAnd := true, NextOr := false } (by simp)

namespace Exec

lemma runLoop_cons_run (c : Int) (pA pO : Bool) (s : StageR) (rest : List StageR)
    (hr : shouldRun pA pO c = true) (hf : (runPipe s.cmds).fault = false) :
    runLoop c pA pO (s :: rest) =
      ((true, (runPipe s.cmds).exitCode) ::
        (runLoop (runPipe s.cmds).exitCode s.NextAnd s.NextOr rest).1,
       (runLoop (runPipe s.cmds).exitCode s.NextAnd s.NextOr rest).2) := by
  rw [runLoop, if_pos hr]
  simp [hf]

lemma runLoop_cons_fault (c : Int) (pA pO : Bool) (s : StageR) (rest : List StageR)
    (hr : shouldRun pA pO c = true) (hf : (runPipe s.cmds).fault = true) :
    runLoop c pA pO (s :: rest) = ([(true, (runPipe s.cmds).exitCode)], true) := by
  rw [runLoop, if_pos hr]
  simp [hf]

lemma runLoop_cons_skip (c : Int) (pA pO : Bool) (s : StageR) (rest : List StageR)
    (hr : shouldRun pA pO c = false) :
    runLoop c pA pO (s :: rest) =
      ((false, c) :: (runLoop c s.NextAnd s.NextOr rest).1,
       (runLoop c s.NextAnd s.NextOr rest).2) := by
  rw [runLoop, if_neg (by simp [hr])]

lemma shouldRun_false_iff (pA pO : Bool) (c : Int) :
    shouldRun pA pO c = false ↔ (pA = true ∧ c ≠ 0) ∨ (pO = true ∧ c = 0) := by
  unfold shouldRun
  split_ifs with h1 h2
  · exact iff_of_true rfl (Or.inl h1)
  · exact iff_of_true rfl (Or.inr h2)
  · exact iff_of_false (by simp) (fun hd => hd.elim h1 h2)

lemma runLoop_spec :
    ∀ (stages : List StageR) (c : Int) (pA pO : Bool),
      (runLoop c pA pO stages).2 = false →
      (runLoop c pA pO stages).1.length = stages.length ∧
      (stages ≠ [] →
        (((runLoop c pA pO stages).1.getD 0 dTr).1 = false ↔
          (pA = true ∧ c ≠ 0) ∨ (pO = true ∧ c = 0)) ∧
        (((runLoop c pA pO stages).1.getD 0 dTr).1 = false →
          ((runLoop c pA pO stages).1.getD 0 dTr).2 = c)) ∧
      (∀ i, i + 1 < stages.length →
        ((((runLoop c pA pO stages).1.getD (i + 1) dTr).1 = false ↔
          ((stages.getD i default).NextAnd = true ∧
            ((runLoop c pA pO stages).1.getD i dTr).2 ≠ 0) ∨
          ((stages.getD i default).NextOr = true ∧
            ((runLoop c pA pO stages).1.getD i dTr).2 = 0)) ∧
        (((runLoop c pA pO stages).1.getD (i + 1) dTr).1 = false →
          ((runLoop c pA pO stages).1.getD (i + 1) dTr).2 =
            ((runLoop c pA pO stages).1.getD i dTr).2))) := by
  intro stages
  induction stages with
  | nil =>
    intro c pA pO h
    exact ⟨rfl, fun hne => absurd rfl hne, fun i hi => absurd hi (by simp)⟩
  | cons s rest ih =>
    intro c pA pO h
    by_cases hr : shouldRun pA pO c = true
    · by_cases hf : (runPipe s.cmds).fault = true
      · rw [runLoop_cons_fault c pA pO s rest hr hf] at h
        exact absurd h (by simp)
      · have hf' : (runPipe s.cmds).fault = false := by
          cases hb : (runPipe s.cmds).fault
          · rfl
          · exact absurd hb hf
        rw [runLoop_cons_run c pA pO s rest hr hf'] at h ⊢
        obtain ⟨ihlen, ihhead, ihstep⟩ :=
          ih (runPipe s.cmds).exitCode s.NextAnd s.NextOr h
        refine ⟨by simp [ihlen], ?_, ?_⟩
        · intro _
          constructor
          · constructor
            · intro habs; simp at habs
            · intro hd
              have hfalse := (shouldRun_false_iff pA pO c).mpr hd
              rw [hr] at hfalse
              exact absurd hfalse (by simp)
          · intro habs; simp at habs
        · intro i hi
          cases i with
          | zero =>
            have hrest_ne : rest ≠ [] := by
              intro hr0
              rw [hr0] at hi
              simp at hi
            obtain ⟨hh1, hh2⟩ := ihhead hrest_ne
            constructor
            · simpa using hh1
            · simpa using hh2
          | succ j =>
            have hj : j + 1 < rest.length := by
              simp at hi
              omega
            obtain ⟨hs1, hs2⟩ := ihstep j hj
            constructor
            · simpa using hs1
            · simpa using hs2
    · have hr' : shouldRun pA pO c = false := by
        cases hb : shouldRun pA pO c
        · rfl
        · exact absurd hb hr
      rw [runLoop_cons_skip c pA pO s rest hr'] at h ⊢
      obtain ⟨ihlen, ihhead, ihstep⟩ := ih c s.NextAnd s.NextOr h
      refine ⟨by simp [ihlen], ?_, ?_⟩
      · intro _
        refine ⟨⟨fun _ => (shouldRun_false_iff pA pO c).mp hr', fun _ => by simp⟩,
          fun _ => by simp⟩
      · intro i hi
        cases i with
        | zero =>
          have hrest_ne : rest ≠ [] := by
            intro hr0
            rw [hr0] at hi
            simp at hi
          obtain ⟨hh1, hh2⟩ := ihhead hrest_ne
          constructor
          · simpa using hh1
          · simpa using hh2
        | succ j =>
          have hj : j + 1 < rest.length := by
            simp at hi
            omega
          obtain ⟨hs1, hs2⟩ := ihstep j hj
          constructor
          · simpa using hs1
          · simpa using hs2

end Exec

/-- C2: for every pipeline executed without a hard fault, stage 0 always
runs; stage `i+1` is skipped exactly when stage `i`'s `NextAnd` holds and the
last recorded exit code is non-zero, or stage `i`'s `NextOr` holds and the
last recorded exit code is zero; and a skipped stage leaves the last recorded
exit code unchanged, so the next check uses the code of the last stage that
actually ran. -/
theorem c2_conditional_state_machine (stages : List Exec.StageR)
    (h : (Exec.runPipeline stages).2 = false) :
    (Exec.runPipeline stages).1.length = stages.length ∧
    (stages ≠ [] → ((Exec.runPipeline stages).1.getD 0 Exec.dTr).1 = true) ∧
    (∀ i, i + 1 < stages.length →
      ((((Exec.runPipeline stages).1.getD (i + 1) Exec.dTr).1 = false ↔
        ((stages.getD i default).NextAnd = true ∧
          ((Exec.runPipeline stages).1.getD i Exec.dTr).2 ≠ 0) ∨
        ((stages.getD i default).NextOr = true ∧
          ((Exec.runPipeline stages).1.getD i Exec.dTr).2 = 0)) ∧
      (((Exec.runPipeline stages).1.getD (i + 1) Exec.dTr).1 = false →
        ((Exec.runPipeline stages).1.getD (i + 1) Exec.dTr).2 =
          ((Exec.runPipeline stages).1.getD i Exec.dTr).2))) := by
  rw [Exec.runPipeline] at h ⊢
  obtain ⟨hlen, hhead, hstep⟩ := Exec.runLoop_spec stages 0 false false h
  refine ⟨hlen, ?_, hstep⟩
  intro hne
  obtain ⟨hh1, _⟩ := hhead hne
  cases hb : ((Exec.runLoop 0 false false stages).1.getD 0 Exec.dTr).1
  · rcases hh1.mp hb with ⟨ha, _⟩ | ⟨ha, _⟩ <;> exact absurd ha (by simp)
  · rfl

/-- Witness for C2 at a two-stage pipeline whose first stage fails with code
1 under `&&`, so the second is skipped; both stages appear in the trace. -/
theorem c2_conditional_state_machine_witness :
    (Exec.runPipeline [⟨true, false, [Exec.CmdOutcome.external false 1]⟩,
        ⟨false, false, [Exec.CmdOutcome.external false 0]⟩]).1.length = 2 :=
  (c2_conditional_state_machine
    [⟨true, false, [Exec.CmdOutcome.external false 1]⟩,
     ⟨false, false, [Exec.CmdOutcome.external false 0]⟩] (by decide)).1
